import Mathlib

/-!
A shallow embedding of the `anycow` crate (`src/lib.rs`): a polymorphic
container `AnyCow` with storage variants Borrowed, Owned, Shared,
Updatable and Lazy.  The atomic slots that back the Updatable and Lazy
variants (`arc_swap::ArcSwap` in the source) are modelled by an explicit
slot heap `St` threaded through every operation: each slot holds a value
(`mem`) and a flag saying whether it has been installed (`init`); a Lazy
slot starts empty, an Updatable slot is created installed.  Values of the
element type are pure, so `to_owned`/`clone` on the element is the
identity; `Arc<T>` contents are immutable and modelled by the value they
point to.  The Lazy variant and the operations that exist only in the
crate's tests and examples are modelled from the spec and are marked as
such in their doc comments.
-/

namespace Anycow

/-- Heap of atomic slots backing the Updatable and Lazy variants.
`next` is the next fresh slot id, `mem` the current contents of each slot
and `init` whether the slot has been installed (always true for slots
allocated by `updatable`, initially false for slots allocated by `lazy`). -/
structure St (α : Type) where
  next : Nat
  mem : Nat → α
  init : Nat → Bool

/-- Atomically store `v` into slot `s` (the `ArcSwap::store` of the source). -/
def St.set {α : Type} (σ : St α) (s : Nat) (v : α) : St α :=
  ⟨σ.next, fun n => if n = s then v else σ.mem n,
    fun n => if n = s then true else σ.init n⟩

/-- Allocate a fresh slot already holding `v` (used by the `updatable` constructor). -/
def St.alloc {α : Type} (σ : St α) (v : α) : Nat × St α :=
  (σ.next,
    ⟨σ.next + 1, fun n => if n = σ.next then v else σ.mem n,
      fun n => if n = σ.next then true else σ.init n⟩)

/-- Allocate a fresh, still-empty slot (used by the `lazy` constructor). -/
def St.allocEmpty {α : Type} (σ : St α) : Nat × St α :=
  (σ.next,
    ⟨σ.next + 1, σ.mem, fun n => if n = σ.next then false else σ.init n⟩)

/-- The `AnyCow` sum type of `src/lib.rs`.  `Borrowed`, `Owned` and
`Shared` carry the value they reference directly (a `&T`, `Box<T>` or
`Arc<T>` over immutable data all denote their pointee); `Updatable`
carries the id of its atomic slot.  `Lazy` (modelled from the spec §3:
absent from `src/lib.rs`, present in the crate's tests and examples)
carries the id of its initially empty slot together with its factory. -/
inductive AnyCow (α : Type) where
  | Borrowed : α → AnyCow α
  | Owned : α → AnyCow α
  | Shared : α → AnyCow α
  | Updatable : Nat → AnyCow α
  | Lazy : Nat → (Unit → α) → AnyCow α

/-- `AnyCow::borrowed` — wrap a reference. -/
def AnyCow.borrowed {α : Type} (v : α) : AnyCow α :=
  AnyCow.Borrowed v

/-- `AnyCow::owned` — move the value into a box. -/
def AnyCow.owned {α : Type} (v : α) : AnyCow α :=
  AnyCow.Owned v

/-- `AnyCow::shared` — wrap an `Arc`. -/
def AnyCow.shared {α : Type} (v : α) : AnyCow α :=
  AnyCow.Shared v

/-- `AnyCow::updatable` — `ArcSwap::from(Arc::new(value))`: a fresh slot
already installed with the value. -/
def AnyCow.updatable {α : Type} (v : α) (σ : St α) : AnyCow α × St α :=
  let p := σ.alloc v
  (AnyCow.Updatable p.1, p.2)

/-- Modelled from the spec: `AnyCow::lazy` is absent from `src/lib.rs`
(only its tests and examples call it); per spec §3 it pairs a fresh,
still-empty atomic slot with a zero-argument factory. -/
def AnyCow.lazy {α : Type} (f : Unit → α) (σ : St α) : AnyCow α × St α :=
  let p := σ.allocEmpty
  (AnyCow.Lazy p.1 f, p.2)

/-- `AnyCow::is_borrowed`. -/
def AnyCow.is_borrowed {α : Type} : AnyCow α → Bool
  | AnyCow.Borrowed _ => true
  | _ => false

/-- `AnyCow::is_owned`. -/
def AnyCow.is_owned {α : Type} : AnyCow α → Bool
  | AnyCow.Owned _ => true
  | _ => false

/-- Modelled from the spec §4.1 (inspection predicates; only
`is_borrowed` and `is_owned` appear in `src/lib.rs`). -/
def AnyCow.is_shared {α : Type} : AnyCow α → Bool
  | AnyCow.Shared _ => true
  | _ => false

/-- Modelled from the spec §4.1. -/
def AnyCow.is_updatable {α : Type} : AnyCow α → Bool
  | AnyCow.Updatable _ => true
  | _ => false

/-- Modelled from the spec §4.1.  Pure: it never triggers the lazy
slot's first read. -/
def AnyCow.is_lazy {α : Type} : AnyCow α → Bool
  | AnyCow.Lazy _ _ => true
  | _ => false

/-- `AnyCow::borrow` — read access.  Borrowed/Owned/Shared return a
direct reference; Updatable performs an atomic load of its slot; the
Lazy arm (modelled from the spec §4.2) runs the initialize-once
protocol on first read and then behaves like Updatable. -/
def AnyCow.borrow {α : Type} (c : AnyCow α) (σ : St α) : α × St α :=
  match c with
  | AnyCow.Borrowed v => (v, σ)
  | AnyCow.Owned v => (v, σ)
  | AnyCow.Shared v => (v, σ)
  | AnyCow.Updatable s => (σ.mem s, σ)
  | AnyCow.Lazy s f =>
    if σ.init s then (σ.mem s, σ) else (f (), σ.set s (f ()))

/-- The logical value a container currently holds: what `*c.borrow()`
dereferences to. -/
def logicalVal {α : Type} (c : AnyCow α) (σ : St α) : α :=
  (c.borrow σ).1

/-- The recoverable error of the crate (`Err(())` in `src/lib.rs`,
named InapplicableOperation by the spec §7). -/
inductive CowError where
  | InapplicableOperation
deriving DecidableEq

/-- `AnyCow::try_replace` — succeeds only on a variant backed by an
installed atomic slot.  The Updatable arm and the catch-all failure are
from `src/lib.rs`; the Lazy arm is modelled from the spec §4.4 (store
fails unless the container is Updatable or an already-initialized Lazy). -/
def AnyCow.try_replace {α : Type} (c : AnyCow α) (v : α) (σ : St α) :
    Except CowError Unit × St α :=
  match c with
  | AnyCow.Updatable s => (Except.ok (), σ.set s v)
  | AnyCow.Lazy s _ =>
    if σ.init s then (Except.ok (), σ.set s v)
    else (Except.error CowError.InapplicableOperation, σ)
  | _ => (Except.error CowError.InapplicableOperation, σ)

/-- `AnyCow::to_mut` — promote to Owned, cloning the current value, and
hand out the mutable reference.  The result is the promoted container,
the value behind the returned `&mut T`, and the heap afterwards.  The
Lazy arm is modelled from the spec §4.3 (snapshot via the read path,
then switch to Owned). -/
def AnyCow.to_mut {α : Type} (c : AnyCow α) (σ : St α) : AnyCow α × α × St α :=
  match c with
  | AnyCow.Borrowed v => (AnyCow.Owned v, v, σ)
  | AnyCow.Owned v => (AnyCow.Owned v, v, σ)
  | AnyCow.Shared v => (AnyCow.Owned v, v, σ)
  | AnyCow.Updatable s => (AnyCow.Owned (σ.mem s), σ.mem s, σ)
  | AnyCow.Lazy s f =>
    if σ.init s then (AnyCow.Owned (σ.mem s), σ.mem s, σ)
    else (AnyCow.Owned (f ()), f (), σ.set s (f ()))

/-- Writing `w` through the mutable reference returned by `to_mut`:
the write lands in the Owned box of this container and nowhere else. -/
def AnyCow.writeMut {α : Type} (c : AnyCow α) (w : α) : AnyCow α :=
  match c with
  | AnyCow.Owned _ => AnyCow.Owned w
  | x => x

/-- `AnyCow::into_owned` — consume the container and return the value,
cloning when it is not exclusively owned.  The Lazy arm is modelled from
the spec (tests `test_lazy_into_owned`): an uninitialized Lazy runs its
factory; the container is consumed, so its slot is never read again. -/
def AnyCow.into_owned {α : Type} (c : AnyCow α) (σ : St α) : α :=
  match c with
  | AnyCow.Borrowed v => v
  | AnyCow.Owned v => v
  | AnyCow.Shared v => v
  | AnyCow.Updatable s => σ.mem s
  | AnyCow.Lazy s f => if σ.init s then σ.mem s else f ()

/-- `Clone for AnyCow` — Borrowed copies the reference, Owned clones the
box, Shared clones the `Arc`, Updatable snapshots its slot into a new
Shared (`src/lib.rs`).  The Lazy arm is modelled from the tests
(`test_lazy_clone`): initialize if needed, then produce a fresh
Updatable over a new slot holding the snapshot — never the same slot. -/
def AnyCow.clone {α : Type} (c : AnyCow α) (σ : St α) : AnyCow α × St α :=
  match c with
  | AnyCow.Borrowed v => (AnyCow.Borrowed v, σ)
  | AnyCow.Owned v => (AnyCow.Owned v, σ)
  | AnyCow.Shared v => (AnyCow.Shared v, σ)
  | AnyCow.Updatable s => (AnyCow.Shared (σ.mem s), σ)
  | AnyCow.Lazy s f =>
    if σ.init s then
      let p := σ.alloc (σ.mem s)
      (AnyCow.Updatable p.1, p.2)
    else
      let v := f ()
      let p := (σ.set s v).alloc v
      (AnyCow.Updatable p.1, p.2)

/-- Modelled from the spec §6 and the tests (`test_to_shared_*`):
convert to a shared handle, preserving a zero-cost borrow — Borrowed
stays Borrowed, every other variant becomes Shared over the current
logical value. -/
def AnyCow.to_shared {α : Type} (c : AnyCow α) (σ : St α) : AnyCow α × St α :=
  match c with
  | AnyCow.Borrowed v => (AnyCow.Borrowed v, σ)
  | AnyCow.Owned v => (AnyCow.Shared v, σ)
  | AnyCow.Shared v => (AnyCow.Shared v, σ)
  | AnyCow.Updatable s => (AnyCow.Shared (σ.mem s), σ)
  | AnyCow.Lazy s f =>
    if σ.init s then (AnyCow.Shared (σ.mem s), σ)
    else (AnyCow.Shared (f ()), σ.set s (f ()))

/-- `PartialEq for AnyCow`: `self.borrow().deref() == other.borrow().deref()`,
with the two reads threaded in evaluation order through the slot heap. -/
def AnyCow.beq {α : Type} [DecidableEq α] (c1 c2 : AnyCow α) (σ : St α) :
    Bool × St α :=
  let p1 := c1.borrow σ
  let p2 := c2.borrow p1.2
  (decide (p1.1 = p2.1), p2.2)

/-- `Hash for AnyCow`: hash the borrowed logical value with the caller's
hasher, modelled as a function `α → Nat`. -/
def AnyCow.hashBy {α : Type} (hf : α → Nat) (c : AnyCow α) (σ : St α) :
    Nat × St α :=
  let p := c.borrow σ
  (hf p.1, p.2)

/-- `Ord for AnyCow`: `self.borrow().deref().cmp(other.borrow().deref())`,
delegating to the element type's comparator. -/
def AnyCow.cmpBy {α : Type} (cmp : α → α → Ordering) (c1 c2 : AnyCow α)
    (σ : St α) : Ordering × St α :=
  let p1 := c1.borrow σ
  let p2 := c2.borrow p1.2
  (cmp p1.1 p2.1, p2.2)

/-- `AnyCow::to_mut` with the source's control flow kept intact: in each
promotion arm the container is first overwritten with `AnyCow::Owned(...)`
and then re-matched, and the re-match's catch-all arm — the
`unreachable!()` of `src/lib.rs` — is modelled by `none`.  The function
returns `none` exactly when an `unreachable!()` of the source would
execute. -/
def AnyCow.to_mut_checked {α : Type} (c : AnyCow α) (σ : St α) :
    Option (AnyCow α × α × St α) :=
  match c with
  | AnyCow.Borrowed v =>
    let self : AnyCow α := AnyCow.Owned v
    match self with
    | AnyCow.Owned w => some (self, w, σ)
    | _ => none
  | AnyCow.Owned v => some (AnyCow.Owned v, v, σ)
  | AnyCow.Shared v =>
    let self : AnyCow α := AnyCow.Owned v
    match self with
    | AnyCow.Owned w => some (self, w, σ)
    | _ => none
  | AnyCow.Updatable s =>
    let owned := σ.mem s
    let self : AnyCow α := AnyCow.Owned owned
    match self with
    | AnyCow.Owned w => some (self, w, σ)
    | _ => none
  | AnyCow.Lazy s f =>
    let p := (AnyCow.Lazy s f).borrow σ
    let self : AnyCow α := AnyCow.Owned p.1
    match self with
    | AnyCow.Owned w => some (self, w, p.2)
    | _ => none

/-- Modelled from the spec §4.4: the state of the lock-free
initialize-once protocol run by `n` racing first-time readers of one
Lazy slot.  `slot` is the shared atomic cell, initially empty;
`computed` records each reader's own local factory invocation result (a
race loser's computation happens but its result is discarded); `res` is
the value a reader returned once done. -/
structure ProtoState (n : Nat) (α : Type) where
  slot : Option α
  computed : Fin n → Option α
  res : Fin n → Option α

/-- Modelled from the spec §4.4: one atomic step of reader `i`, with
`f i` the result of reader i's own factory invocation.  A finished
reader does nothing.  Otherwise: a reader that has already computed
performs the single atomic install-if-still-empty step and returns the
slot's contents (the winner's value, not necessarily its own); a reader
that has not computed takes the fast path when the slot is already
filled, else runs the factory locally.  Every step is enabled in every
state — no reader ever waits on another. -/
def readerStep {n : Nat} {α : Type} (f : Fin n → α) (i : Fin n)
    (ρ : ProtoState n α) : ProtoState n α :=
  match ρ.res i with
  | some _ => ρ
  | none =>
    match ρ.computed i with
    | some v =>
      let w := ρ.slot.getD v
      ⟨some w, ρ.computed, fun j => if j = i then some w else ρ.res j⟩
    | none =>
      match ρ.slot with
      | some w =>
        ⟨ρ.slot, ρ.computed, fun j => if j = i then some w else ρ.res j⟩
      | none =>
        ⟨ρ.slot, fun j => if j = i then some (f i) else ρ.computed j, ρ.res⟩

/-- Run the protocol under an arbitrary interleaving of reader steps,
given as a schedule of reader ids. -/
def runSched {n : Nat} {α : Type} (f : Fin n → α) (sched : List (Fin n))
    (ρ : ProtoState n α) : ProtoState n α :=
  sched.foldl (fun ρ' i => readerStep f i ρ') ρ

/-- The all-empty starting state of a fresh Lazy slot's protocol. -/
def protoStart (n : Nat) (α : Type) : ProtoState n α :=
  ⟨none, fun _ => none, fun _ => none⟩

/-- Protocol invariant: every finished reader returned exactly the value
currently installed in the slot. -/
def ProtoInv {n : Nat} {α : Type} (ρ : ProtoState n α) : Prop :=
  ∀ i r, ρ.res i = some r → ρ.slot = some r

lemma readerStep_done {n : Nat} {α : Type} (f : Fin n → α) (i : Fin n)
    (ρ : ProtoState n α) (v : α) (h : ρ.res i = some v) :
    readerStep f i ρ = ρ := by
  unfold readerStep
  rw [h]

lemma readerStep_install {n : Nat} {α : Type} (f : Fin n → α) (i : Fin n)
    (ρ : ProtoState n α) (v : α) (hres : ρ.res i = none)
    (hcomp : ρ.computed i = some v) :
    readerStep f i ρ =
      ⟨some (ρ.slot.getD v), ρ.computed,
        fun j => if j = i then some (ρ.slot.getD v) else ρ.res j⟩ := by
  unfold readerStep
  rw [hres, hcomp]

lemma readerStep_fast {n : Nat} {α : Type} (f : Fin n → α) (i : Fin n)
    (ρ : ProtoState n α) (w : α) (hres : ρ.res i = none)
    (hcomp : ρ.computed i = none) (hslot : ρ.slot = some w) :
    readerStep f i ρ =
      ⟨ρ.slot, ρ.computed, fun j => if j = i then some w else ρ.res j⟩ := by
  unfold readerStep
  rw [hres, hcomp, hslot]

lemma readerStep_compute {n : Nat} {α : Type} (f : Fin n → α) (i : Fin n)
    (ρ : ProtoState n α) (hres : ρ.res i = none)
    (hcomp : ρ.computed i = none) (hslot : ρ.slot = none) :
    readerStep f i ρ =
      ⟨ρ.slot, fun j => if j = i then some (f i) else ρ.computed j, ρ.res⟩ := by
  unfold readerStep
  rw [hres, hcomp, hslot]

lemma inv_step {n : Nat} {α : Type} (f : Fin n → α) (i : Fin n)
    (ρ : ProtoState n α) (h : ProtoInv ρ) : ProtoInv (readerStep f i ρ) := by
  intro j r hj
  cases hres : ρ.res i with
  | some v =>
    rw [readerStep_done f i ρ v hres] at hj ⊢
    exact h j r hj
  | none =>
    cases hcomp : ρ.computed i with
    | some v =>
      rw [readerStep_install f i ρ v hres hcomp] at hj ⊢
      by_cases hji : j = i
      · subst hji
        simp at hj
        simp [hj]
      · simp only [if_neg hji] at hj
        rw [h j r hj]
        rfl
    | none =>
      cases hslot : ρ.slot with
      | some w =>
        rw [readerStep_fast f i ρ w hres hcomp hslot] at hj ⊢
        by_cases hji : j = i
        · subst hji
          simp at hj
          rw [hslot, hj]
        · simp only [if_neg hji] at hj
          exact h j r hj
      | none =>
        rw [readerStep_compute f i ρ hres hcomp hslot] at hj ⊢
        exact h j r hj

lemma inv_run {n : Nat} {α : Type} (f : Fin n → α) (sched : List (Fin n))
    (ρ : ProtoState n α) (h : ProtoInv ρ) : ProtoInv (runSched f sched ρ) := by
  induction sched generalizing ρ with
  | nil => exact h
  | cons i tl ih => exact ih (readerStep f i ρ) (inv_step f i ρ h)

lemma protoStart_inv {n : Nat} {α : Type} : ProtoInv (protoStart n α) := by
  intro i r h
  simp [protoStart] at h

lemma reader_two_step {n : Nat} {α : Type} (f : Fin n → α) (i : Fin n)
    (ρ : ProtoState n α) :
    ((readerStep f i (readerStep f i ρ)).res i).isSome = true := by
  cases hres : ρ.res i with
  | some v =>
    rw [readerStep_done f i ρ v hres, readerStep_done f i ρ v hres, hres]
    rfl
  | none =>
    cases hcomp : ρ.computed i with
    | some v =>
      have h1 : (readerStep f i ρ).res i = some (ρ.slot.getD v) := by
        rw [readerStep_install f i ρ v hres hcomp]
        simp
      rw [readerStep_done f i _ _ h1, h1]
      rfl
    | none =>
      cases hslot : ρ.slot with
      | some w =>
        have h1 : (readerStep f i ρ).res i = some w := by
          rw [readerStep_fast f i ρ w hres hcomp hslot]
          simp
        rw [readerStep_done f i _ _ h1, h1]
        rfl
      | none =>
        have h1 : (readerStep f i ρ).res i = none := by
          rw [readerStep_compute f i ρ hres hcomp hslot]
          exact hres
        have h2 : (readerStep f i ρ).computed i = some (f i) := by
          rw [readerStep_compute f i ρ hres hcomp hslot]
          simp
        rw [readerStep_install f i _ (f i) h1 h2]
        simp

lemma borrow_second_read {α : Type} (σ : St α) (c1 c2 : AnyCow α)
    (h : logicalVal c1 σ = logicalVal c2 σ) :
    (c2.borrow (c1.borrow σ).2).1 = (c1.borrow σ).1 := by
  cases c1 with
  | Borrowed v => exact h.symm
  | Owned v => exact h.symm
  | Shared v => exact h.symm
  | Updatable s => exact h.symm
  | Lazy s f =>
    by_cases hs : σ.init s
    · simp only [logicalVal, AnyCow.borrow, hs, if_pos] at h ⊢
      exact h.symm
    · simp only [logicalVal, AnyCow.borrow, hs, if_neg, Bool.false_eq_true,
        if_false] at h ⊢
      cases c2 with
      | Borrowed w => exact h.symm
      | Owned w => exact h.symm
      | Shared w => exact h.symm
      | Updatable t =>
        simp only [AnyCow.borrow, St.set] at h ⊢
        by_cases hts : t = s
        · simp [hts]
        · simp [hts, h.symm]
      | Lazy t g =>
        simp only [AnyCow.borrow, St.set] at h ⊢
        by_cases hts : t = s
        · simp [hts]
        · by_cases hit : σ.init t
          · simp [hts, hit] at h ⊢
            exact h.symm
          · simp [hts, hit] at h ⊢
            exact h.symm

/-- Claim C1: constructing a container in each of the five variants
(Borrowed, Owned, Shared, Updatable, Lazy) holding a value `x` — for
Lazy, with a factory producing `x` — and then reading it via `borrow`
yields `x`. -/
theorem construct_then_borrow {α : Type} (σ : St α) (x : α) :
    logicalVal (AnyCow.borrowed x) σ = x ∧
    logicalVal (AnyCow.owned x) σ = x ∧
    logicalVal (AnyCow.shared x) σ = x ∧
    logicalVal (AnyCow.updatable x σ).1 (AnyCow.updatable x σ).2 = x ∧
    logicalVal (AnyCow.lazy (fun _ => x) σ).1 (AnyCow.lazy (fun _ => x) σ).2 = x := by
  refine ⟨rfl, rfl, rfl, ?_, ?_⟩
  · simp [logicalVal, AnyCow.updatable, AnyCow.borrow, St.alloc]
  · simp [logicalVal, AnyCow.lazy, AnyCow.borrow, St.allocEmpty]

/-- Claim C2: the container offers five constructors, one per variant,
and each is a total function — in this embedding each constructor is a
total Lean function into `AnyCow α` (times the slot heap), defined for
every input, and it produces exactly the variant it names. -/
theorem constructors_one_per_variant {α : Type} (σ : St α) (x : α) (f : Unit → α) :
    (AnyCow.borrowed x).is_borrowed = true ∧
    (AnyCow.owned x).is_owned = true ∧
    (AnyCow.shared x).is_shared = true ∧
    (AnyCow.updatable x σ).1.is_updatable = true ∧
    (AnyCow.lazy f σ).1.is_lazy = true :=
  ⟨rfl, rfl, rfl, rfl, rfl⟩

/-- Claim C7: `into_owned` on a container of each of the five variants,
each holding `x` (for Lazy: with a factory producing `x`), returns `x`. -/
theorem into_owned_roundtrip {α : Type} (σ : St α) (x : α) :
    (AnyCow.borrowed x).into_owned σ = x ∧
    (AnyCow.owned x).into_owned σ = x ∧
    (AnyCow.shared x).into_owned σ = x ∧
    (AnyCow.updatable x σ).1.into_owned (AnyCow.updatable x σ).2 = x ∧
    (AnyCow.lazy (fun _ => x) σ).1.into_owned (AnyCow.lazy (fun _ => x) σ).2 = x := by
  refine ⟨rfl, rfl, rfl, ?_, ?_⟩
  · simp [AnyCow.into_owned, AnyCow.updatable, St.alloc]
  · simp [AnyCow.into_owned, AnyCow.lazy, St.allocEmpty]

/-- Claim C10: the `unreachable!()` branches inside `to_mut` can never
execute: `to_mut_checked` mirrors the source's overwrite-then-re-match
control flow with the fatal branch modelled as `none`, and it always
returns `some`, agreeing with `to_mut`, for every container and heap. -/
theorem to_mut_unreachable_dead {α : Type} (c : AnyCow α) (σ : St α) :
    (c.to_mut_checked σ).isSome = true ∧ c.to_mut_checked σ = some (c.to_mut σ) := by
  cases c with
  | Borrowed v => exact ⟨rfl, rfl⟩
  | Owned v => exact ⟨rfl, rfl⟩
  | Shared v => exact ⟨rfl, rfl⟩
  | Updatable s => exact ⟨rfl, rfl⟩
  | Lazy s f =>
    constructor
    · rfl
    · simp only [AnyCow.to_mut_checked, AnyCow.to_mut, AnyCow.borrow]
      split <;> rfl

/-- Claim C3: for all containers holding logically equal values,
possibly stored in different variants, the `PartialEq`, `Hash` and `Ord`
implementations — which all borrow the logical value and delegate to the
element type — report equality, identical hashes, and `Ordering.eq`
(assuming the element comparator is reflexive, as Rust's `Ord` contract
requires). -/
theorem eq_hash_cmp_logical {α : Type} [DecidableEq α] (σ : St α)
    (c1 c2 : AnyCow α) (hf : α → Nat) (cmp : α → α → Ordering)
    (h : logicalVal c1 σ = logicalVal c2 σ)
    (hcmp : ∀ a, cmp a a = Ordering.eq) :
    (c1.beq c2 σ).1 = true ∧
    (AnyCow.hashBy hf c1 σ).1 = (AnyCow.hashBy hf c2 σ).1 ∧
    (AnyCow.cmpBy cmp c1 c2 σ).1 = Ordering.eq := by
  have key := borrow_second_read σ c1 c2 h
  refine ⟨?_, ?_, ?_⟩
  · simp [AnyCow.beq, key]
  · exact congrArg hf h
  · simp only [AnyCow.cmpBy, key]
    exact hcmp _

/-- Claim C3, witness: an Owned and a Shared container over the value 5
compare equal, hash alike, and order as `Ordering.eq`. -/
theorem eq_hash_cmp_logical_wit :
    ((AnyCow.Owned (5 : Nat)).beq (AnyCow.Shared 5) ⟨0, fun _ => 0, fun _ => false⟩).1 = true ∧
    (AnyCow.hashBy id (AnyCow.Owned (5 : Nat)) ⟨0, fun _ => 0, fun _ => false⟩).1 =
      (AnyCow.hashBy id (AnyCow.Shared 5) ⟨0, fun _ => 0, fun _ => false⟩).1 ∧
    (AnyCow.cmpBy (fun _ _ => Ordering.eq) (AnyCow.Owned (5 : Nat)) (AnyCow.Shared 5)
      ⟨0, fun _ => 0, fun _ => false⟩).1 = Ordering.eq :=
  eq_hash_cmp_logical ⟨0, fun _ => 0, fun _ => false⟩ (AnyCow.Owned 5) (AnyCow.Shared 5)
    id (fun _ _ => Ordering.eq) rfl (fun _ => rfl)

/-- Claim C4, counterexample: a Lazy container that has been read once
(so its slot is installed) is not Updatable, yet `try_replace` on it
returns Ok — so "on a container of any other variant it fails" is false
as stated. -/
theorem try_replace_lazy_ok_counter :
    ((AnyCow.lazy (fun _ => (1 : Nat)) ⟨0, fun _ => 0, fun _ => false⟩).1.is_updatable
        = false) ∧
    ((AnyCow.lazy (fun _ => (1 : Nat)) ⟨0, fun _ => 0, fun _ => false⟩).1.try_replace 2
        ((AnyCow.lazy (fun _ => (1 : Nat)) ⟨0, fun _ => 0, fun _ => false⟩).1.borrow
          (AnyCow.lazy (fun _ => (1 : Nat)) ⟨0, fun _ => 0, fun _ => false⟩).2).2).1
      = Except.ok () :=
  ⟨rfl, rfl⟩

/-- Claim C4, amended: `try_replace` on an Updatable container succeeds
and a subsequent borrow yields the new value; the same holds on an
already-initialized Lazy container; on Borrowed, Owned or Shared
containers, and on an uninitialized Lazy, it fails with the recoverable
InapplicableOperation result and the heap (hence the stored value and
the variant) is unchanged. -/
theorem try_replace_semantics {α : Type} (σ : St α) (v w x : α) (f : Unit → α) :
    ((AnyCow.updatable x σ).1.try_replace w (AnyCow.updatable x σ).2).1 = Except.ok () ∧
    logicalVal (AnyCow.updatable x σ).1
      ((AnyCow.updatable x σ).1.try_replace w (AnyCow.updatable x σ).2).2 = w ∧
    (AnyCow.Borrowed v).try_replace w σ = (Except.error CowError.InapplicableOperation, σ) ∧
    (AnyCow.Owned v).try_replace w σ = (Except.error CowError.InapplicableOperation, σ) ∧
    (AnyCow.Shared v).try_replace w σ = (Except.error CowError.InapplicableOperation, σ) ∧
    (AnyCow.lazy f σ).1.try_replace w (AnyCow.lazy f σ).2
      = (Except.error CowError.InapplicableOperation, (AnyCow.lazy f σ).2) ∧
    ((AnyCow.lazy f σ).1.try_replace w
        ((AnyCow.lazy f σ).1.borrow (AnyCow.lazy f σ).2).2).1 = Except.ok () ∧
    logicalVal (AnyCow.lazy f σ).1
      ((AnyCow.lazy f σ).1.try_replace w
        ((AnyCow.lazy f σ).1.borrow (AnyCow.lazy f σ).2).2).2 = w := by
  refine ⟨rfl, ?_, rfl, rfl, rfl, ?_, ?_, ?_⟩
  · simp [logicalVal, AnyCow.updatable, AnyCow.try_replace, AnyCow.borrow, St.alloc, St.set]
  · simp [AnyCow.lazy, AnyCow.try_replace, St.allocEmpty]
  · simp [AnyCow.lazy, AnyCow.try_replace, AnyCow.borrow, St.allocEmpty, St.set]
  · simp [logicalVal, AnyCow.lazy, AnyCow.try_replace, AnyCow.borrow, St.allocEmpty, St.set]

/-- Claim C5: `to_mut` promotes every variant to Owned and hands out the
current logical value; writing `w` through the returned reference lands
only in this container's Owned box — the slot heap is untouched for the
Borrowed, Shared and Updatable promotions, so the original external
datum, any other holder of the same `Arc`, and any snapshot of the same
slot still read their old value. -/
theorem to_mut_clone_on_write {α : Type} (σ : St α) (v w : α) (s : Nat) :
    (∀ c : AnyCow α, ((c.to_mut σ).1).is_owned = true) ∧
    (∀ c : AnyCow α, (c.to_mut σ).2.1 = logicalVal c σ) ∧
    ((AnyCow.Borrowed v).to_mut σ).1.writeMut w = AnyCow.Owned w ∧
    logicalVal (((AnyCow.Borrowed v).to_mut σ).1.writeMut w) σ = w ∧
    ((AnyCow.Borrowed v).to_mut σ).2.2 = σ ∧
    ((AnyCow.Shared v).to_mut σ).2.2 = σ ∧
    ((AnyCow.Updatable s).to_mut σ).2.2 = σ ∧
    (∀ d : AnyCow α, logicalVal d (((AnyCow.Updatable s).to_mut σ).2.2) = logicalVal d σ) ∧
    logicalVal (AnyCow.Borrowed v) σ = v ∧
    logicalVal (AnyCow.Shared v) σ = v := by
  refine ⟨?_, ?_, rfl, rfl, rfl, rfl, rfl, fun d => rfl, rfl, rfl⟩
  · intro c
    cases c with
    | Borrowed v' => rfl
    | Owned v' => rfl
    | Shared v' => rfl
    | Updatable t => rfl
    | Lazy t g =>
      simp only [AnyCow.to_mut]
      split <;> rfl
  · intro c
    cases c with
    | Borrowed v' => rfl
    | Owned v' => rfl
    | Shared v' => rfl
    | Updatable t => rfl
    | Lazy t g =>
      simp only [AnyCow.to_mut, logicalVal, AnyCow.borrow]
      split <;> rfl

/-- Claim C6: cloning an Updatable container holding `a` yields a
snapshot container that shares no state with the original's atomic slot:
after `try_replace b` succeeds on the original, the original reads `b`
while the clone still reads `a` — indeed the clone's read is independent
of the slot heap altogether. -/
theorem clone_snapshot_independent {α : Type} (σ : St α) (a b : α) :
    ((AnyCow.updatable a σ).1.try_replace b
        ((AnyCow.updatable a σ).1.clone (AnyCow.updatable a σ).2).2).1 = Except.ok () ∧
    logicalVal (AnyCow.updatable a σ).1
      ((AnyCow.updatable a σ).1.try_replace b
        ((AnyCow.updatable a σ).1.clone (AnyCow.updatable a σ).2).2).2 = b ∧
    logicalVal ((AnyCow.updatable a σ).1.clone (AnyCow.updatable a σ).2).1
      ((AnyCow.updatable a σ).1.try_replace b
        ((AnyCow.updatable a σ).1.clone (AnyCow.updatable a σ).2).2).2 = a ∧
    ((AnyCow.updatable a σ).1.clone (AnyCow.updatable a σ).2).1.is_shared = true ∧
    (∀ σ' : St α,
      logicalVal ((AnyCow.updatable a σ).1.clone (AnyCow.updatable a σ).2).1 σ' = a) := by
  refine ⟨rfl, ?_, ?_, ?_, ?_⟩
  · simp [logicalVal, AnyCow.updatable, AnyCow.clone, AnyCow.try_replace, AnyCow.borrow,
      St.alloc, St.set]
  · simp [logicalVal, AnyCow.updatable, AnyCow.clone, AnyCow.try_replace, AnyCow.borrow,
      St.alloc, St.set]
  · simp [AnyCow.updatable, AnyCow.clone, AnyCow.is_shared, St.alloc]
  · intro σ'
    simp [logicalVal, AnyCow.updatable, AnyCow.clone, AnyCow.borrow, St.alloc]

/-- Claim C9: `to_shared` preserves zero-cost borrows — on a Borrowed
container the result is still Borrowed, on every other variant it is
Shared — and in every case the result reads the same logical value as
the original. -/
theorem to_shared_preserves {α : Type} (σ : St α) (c : AnyCow α) :
    (c.to_shared σ).1.is_borrowed = c.is_borrowed ∧
    (c.to_shared σ).1.is_shared = !c.is_borrowed ∧
    logicalVal (c.to_shared σ).1 (c.to_shared σ).2 = logicalVal c σ := by
  cases c with
  | Borrowed v => exact ⟨rfl, rfl, rfl⟩
  | Owned v => exact ⟨rfl, rfl, rfl⟩
  | Shared v => exact ⟨rfl, rfl, rfl⟩
  | Updatable s => exact ⟨rfl, rfl, rfl⟩
  | Lazy s f =>
    by_cases hs : σ.init s
    · simp [AnyCow.to_shared, AnyCow.is_borrowed, AnyCow.is_shared, logicalVal,
        AnyCow.borrow, hs]
    · simp [AnyCow.to_shared, AnyCow.is_borrowed, AnyCow.is_shared, logicalVal,
        AnyCow.borrow, hs, St.set]

/-- Claim C8: a Lazy container's factory is effectively run at most once
per container: the first read installs the factory's value in the slot;
any later read returns the installed value and leaves the heap unchanged
whatever factory the container carries (so the factory is never
re-invoked); in the lock-free initialize-once protocol (modelled from
the spec §4.4), racing first-time readers under any interleaving all
return the single installed value; and every reader finishes within two
of its own atomic steps from any state, so no reader ever blocks on
another's progress. -/
theorem lazy_factory_effectively_once {α : Type} (σ : St α) (f g : Unit → α)
    {n : Nat} (fs : Fin n → α) (sched : List (Fin n)) (i j : Fin n) (ri rj : α)
    (hi : (runSched fs sched (protoStart n α)).res i = some ri)
    (hj : (runSched fs sched (protoStart n α)).res j = some rj) :
    ((AnyCow.lazy f σ).1.borrow (AnyCow.lazy f σ).2).1 = f () ∧
    (AnyCow.Lazy σ.next g).borrow ((AnyCow.lazy f σ).1.borrow (AnyCow.lazy f σ).2).2
      = (f (), ((AnyCow.lazy f σ).1.borrow (AnyCow.lazy f σ).2).2) ∧
    ri = rj ∧
    (∀ (ρ : ProtoState n α) (k : Fin n),
      ((readerStep fs k (readerStep fs k ρ)).res k).isSome = true) := by
  have hinv := inv_run fs sched (protoStart n α) protoStart_inv
  refine ⟨?_, ?_, ?_, ?_⟩
  · simp [AnyCow.lazy, AnyCow.borrow, St.allocEmpty]
  · simp [AnyCow.lazy, AnyCow.borrow, St.allocEmpty, St.set]
  · have h1 := hinv i ri hi
    have h2 := hinv j rj hj
    rw [h1] at h2
    exact Option.some.inj h2
  · intro ρ k
    exact reader_two_step fs k ρ

/-- Claim C8, witness: with two readers racing under the interleaving
[0, 1, 0, 1] over a factory returning 7, the protocol finishes with
reader 0 holding `some 7`, and the agreement instance is discharged. -/
theorem lazy_factory_effectively_once_wit :
    (runSched (fun _ : Fin 2 => (7 : Nat)) [0, 1, 0, 1] (protoStart 2 Nat)).res 0
        = some 7 ∧
    (7 : Nat) = 7 :=
  ⟨by decide,
   (lazy_factory_effectively_once ⟨0, fun _ => 0, fun _ => false⟩ (fun _ => 7)
      (fun _ => 9) (fun _ : Fin 2 => 7) [0, 1, 0, 1] 0 1 7 7
      (by decide) (by decide)).2.2.1⟩

end Anycow
